import Mathlib

/-!
Shallow embedding of the PonyStreaming/music-controller track-selection and
playback-queue engine (`src/streams/streams.go`, with the catalog key scheme
from `src/songs/upload.go`).

The store is modelled as a keyspace mapping key names to redis values
(lists, hashes, sets); the handlers are translated operation by operation
from the Go source. Randomness (`rand.Intn`) is modelled by an arbitrary
`Nat` parameter reduced modulo the selection-list length, and Go map
iteration order is modelled by first-occurrence deduplication (`eraseDups`);
the claims proved below depend only on membership, not on ordering of the
selection list.
-/

set_option autoImplicit false

namespace MusicControl

/-- A redis value: an ordered list, a field hash, or a set (members listed). -/
inductive RVal where
  | list : List String → RVal
  | hash : List (String × String) → RVal
  | set : List String → RVal
deriving DecidableEq, Repr

/-- The store keyspace: key name to value, first binding wins. -/
abbrev Redis := List (String × RVal)

/-- Look up a key in the keyspace. -/
def rget : Redis → String → Option RVal
  | [], _ => none
  | (k', v) :: rest, k => if k' = k then some v else rget rest k

/-- Write a key, replacing the first existing binding or appending a new one. -/
def rput : Redis → String → RVal → Redis
  | [], k, v => [(k, v)]
  | (k', v') :: rest, k, v =>
      if k' = k then (k, v) :: rest else (k', v') :: rput rest k v

/-- Delete a key (redis removes keys whose collection becomes empty). -/
def rdel : Redis → String → Redis
  | [], _ => []
  | (k', v) :: rest, k =>
      if k' = k then rdel rest k else (k', v) :: rdel rest k

/-- `EXISTS key`: 1 iff the key is present, whatever its type
(`h.redis.Exists(trackId).Val() == 0` checks in the Go source). -/
def redisExists (db : Redis) (k : String) : Bool :=
  (rget db k).isSome

/-- `LRANGE key 0 -1`: the whole list; a missing key yields the empty list. -/
def lrange (db : Redis) (k : String) : List String :=
  match rget db k with
  | some (.list l) => l
  | _ => []

/-- `SMEMBERS key`: all members of a set key; missing key yields the empty list. -/
def smembers (db : Redis) (k : String) : List String :=
  match rget db k with
  | some (.set l) => l
  | _ => []

/-- `HGETALL key`: all fields of a hash key; missing key yields no fields. -/
def hgetall (db : Redis) (k : String) : List (String × String) :=
  match rget db k with
  | some (.hash h) => h
  | _ => []

/-- Update or append a field of a hash, keeping field order stable. -/
def hputField : List (String × String) → String → String → List (String × String)
  | [], f, v => [(f, v)]
  | (g, w) :: rest, f, v =>
      if g = f then (f, v) :: rest else (g, w) :: hputField rest f v

/-- `HSET key field value`. -/
def hset (db : Redis) (k f v : String) : Redis :=
  rput db k (.hash (hputField (hgetall db k) f v))

/-- Field lookup in a hash snapshot. -/
def hlookup (h : List (String × String)) (f : String) : Option String :=
  match h with
  | [] => none
  | (g, w) :: rest => if g = f then some w else hlookup rest f

/-- `LPUSH key value`: prepend to the list (creates the key if missing). -/
def lpush (db : Redis) (k v : String) : Redis :=
  rput db k (.list (v :: lrange db k))

/-- `RPUSH key value`: append to the list (creates the key if missing). -/
def rpush (db : Redis) (k v : String) : Redis :=
  rput db k (.list (lrange db k ++ [v]))

/-- `LTRIM key start stop` for non-negative `start`, `stop`: keep the slots
with indices in `[start, stop]`; the key is removed if nothing remains. -/
def ltrim (db : Redis) (k : String) (start stop : Nat) : Redis :=
  match rget db k with
  | some (.list l) =>
      let l' := (l.drop start).take (stop + 1 - start)
      if l' = [] then rdel db k else rput db k (.list l')
  | _ => db

/-- `LPOP key`: pop the head; `none` models `redis.Nil` (missing key). The
key is deleted when the last element is popped. -/
def lpop (db : Redis) (k : String) : Redis × Option String :=
  match rget db k with
  | some (.list (x :: rest)) =>
      (if rest = [] then rdel db k else rput db k (.list rest), some x)
  | _ => (db, none)

/-- `LSET key index value`: negative indices count from the tail; `none`
models the error replies (`no such key`, `index out of range`). -/
def lset (db : Redis) (k : String) (i : Int) (v : String) : Option Redis :=
  match rget db k with
  | some (.list l) =>
      let j : Int := if i < 0 then i + l.length else i
      if 0 ≤ j ∧ j < l.length then
        some (rput db k (.list (l.set j.toNat v)))
      else none
  | _ => none

/-- The per-stream up-next list key (`upnext-%s` in the source). -/
def upnextKey (s : String) : String := "upnext-" ++ s

/-- The per-stream recency list key (`recent-%s` in the source). -/
def recentKey (s : String) : String := "recent-" ++ s

/-- The per-stream state hash key (`state-%s` in the source). -/
def stateKey (s : String) : String := "state-" ++ s

/-- The catalog set key (`songs.TrackPoolKey = "track-pool"`). -/
def trackPoolKey : String := "track-pool"

/-- Events published on the per-stream channel. -/
inductive Event where
  | update (stream key value : String)
  | updateUpNext (stream : String) (upNext : List String)
  | requestSkip (stream : String)
deriving DecidableEq, Repr

/-- The key holds either nothing or a list (real redis replies WRONGTYPE to
list commands otherwise; the Go handlers turn that into a 500/hang, which the
theorems below exclude by this typing side condition). -/
def listTyped (db : Redis) (k : String) : Bool :=
  match rget db k with
  | none => true
  | some (.list _) => true
  | some _ => false

/-- The key holds either nothing or a set. -/
def setTyped (db : Redis) (k : String) : Bool :=
  match rget db k with
  | none => true
  | some (.set _) => true
  | some _ => false

/-- The key holds either nothing or a hash. -/
def hashTyped (db : Redis) (k : String) : Bool :=
  match rget db k with
  | none => true
  | some (.hash _) => true
  | some _ => false

/-- Result of the `next` endpoint: a selected track id, or the 418
"apparently there is no music to play" reply (`NoContentAvailable`). -/
inductive NextResult where
  | track (id : String)
  | noContent
deriving DecidableEq, Repr

/-- The `LPop` loop of `handleNext` on the queue contents `l`, threading the
keyspace: each iteration pops the head (exactly as `lpop` updates the store),
skips tombstones (`next == ""`) and entries whose key-existence probe
(`h.redis.Exists(next)`) fails against the post-pop keyspace, and stops at
the first surviving entry or when the pop returns `redis.Nil`. -/
def drainQueue (s : String) : List String → Redis → Redis × Option String
  | [], db => (db, none)
  | x :: rest, db =>
      let db' := if rest = [] then rdel db (upnextKey s)
                 else rput db (upnextKey s) (.list rest)
      if x = "" then drainQueue s rest db'
      else if redisExists db' x then (db', some x)
      else drainQueue s rest db'

/-- `DequeueNext`: drain the stream's up-next list from the head. -/
def drain (db : Redis) (s : String) : Redis × Option String :=
  drainQueue s (lrange db (upnextKey s)) db

/-- `handleNext`: try the up-next queue; otherwise subtract the recency list
from the catalog set, pick a random member, falling back to
`recentlyPlayed.Val()[0]` when nothing remains, and to the 418 reply when the
recency list is empty too. `rnd` stands for the `rand.Intn` draw. -/
def handleNext (db : Redis) (s : String) (rnd : Nat) :
    Redis × NextResult × List Event :=
  match drain db s with
  | (db2, some t) =>
      (db2, .track t, [.updateUpNext s (lrange db2 (upnextKey s))])
  | (db2, none) =>
      let recentlyPlayed := lrange db2 (recentKey s)
      let allTracks := smembers db2 trackPoolKey
      let selectionList :=
        allTracks.eraseDups.filter (fun t => decide (t ∉ recentlyPlayed))
      if selectionList = [] then
        if recentlyPlayed = [] then (db2, .noContent, [])
        else (db2, .track (recentlyPlayed.headD ""), [])
      else
        (db2, .track (selectionList.getD (rnd % selectionList.length) ""), [])

/-- Result of the `PUT /{stream}/upnext` endpoint. -/
inductive UpNextPutResult where
  | ok
  | unknownTrack
deriving DecidableEq, Repr

/-- `handleUpNext` PUT: reject with 424 (`UnknownTrack`) when the
key-existence probe for `trackId` fails, else `RPush` it onto the up-next
list and publish the new queue snapshot. -/
def enqueueTrack (db : Redis) (s tid : String) :
    Redis × UpNextPutResult × List Event :=
  if redisExists db tid then
    let db' := rpush db (upnextKey s) tid
    (db', .ok, [.updateUpNext s (lrange db' (upnextKey s))])
  else (db, .unknownTrack, [])

/-- Result of the `DELETE /{stream}/upnext` endpoint. -/
inductive RemoveResult where
  | ok
  | invalidIndex
deriving DecidableEq, Repr

/-- `handleUpNext` DELETE: tombstone the slot at `index` with
`LSet(key, index, "")`, answering 400 (`InvalidIndex`) exactly when the
store's `LSET` reports an error, and publish the new queue snapshot. -/
def removeAt (db : Redis) (s : String) (i : Int) :
    Redis × RemoveResult × List Event :=
  match lset db (upnextKey s) i "" with
  | some db' => (db', .ok, [.updateUpNext s (lrange db' (upnextKey s))])
  | none => (db, .invalidIndex, [])

/-- One form field of `handleState` PATCH, translated case by case from the
Go `switch`: `currentTrack` runs the `HSet` + `LPush` + `LTrim 0 5` pipeline
and publishes one `update` event; the source's `case "playing":` has an
empty body (Go does not fall through), so it writes nothing and publishes
nothing; `autoplay` writes the field and publishes one `update` event;
`skip` publishes `requestSkip`; unrecognized keys are ignored. -/
def patchField (db : Redis) (s k v : String) : Redis × List Event :=
  if k = "currentTrack" then
    let db1 := hset db (stateKey s) "currentTrack" v
    let db2 := lpush db1 (recentKey s) v
    let db3 := ltrim db2 (recentKey s) 0 5
    (db3, [.update s k v])
  else if k = "playing" then
    (db, [])
  else if k = "autoplay" then
    (hset db (stateKey s) k v, [.update s k v])
  else if k = "skip" then
    (db, [.requestSkip s])
  else (db, [])

/-- `RecordPlayed` as reachable through the API: the state-altering part of
`PatchState(stream, currentTrack = v)`. -/
def recordPlayed (db : Redis) (s v : String) : Redis :=
  (patchField db s "currentTrack" v).1

/-- A sequence of `RecordPlayed` operations. -/
def recordAll (db : Redis) (s : String) (vs : List String) : Redis :=
  vs.foldl (fun d v => recordPlayed d s v) db

/-- `handleState` GET: `HGetAll` of the state hash, returned verbatim. -/
def getState (db : Redis) (s : String) : List (String × String) :=
  hgetall db (stateKey s)

/-! ### Store lemmas -/

theorem rget_rput_self (db : Redis) (k : String) (v : RVal) :
    rget (rput db k v) k = some v := by
  induction db with
  | nil => simp [rput, rget]
  | cons p rest ih =>
      obtain ⟨k', v'⟩ := p
      by_cases h : k' = k
      · subst h; simp [rput, rget]
      · simp [rput, rget, h, ih]

theorem rget_rput_ne (db : Redis) (k k' : String) (v : RVal) (h : k' ≠ k) :
    rget (rput db k v) k' = rget db k' := by
  have hkk : ¬k = k' := fun he => h he.symm
  induction db with
  | nil => simp [rput, rget, hkk]
  | cons p rest ih =>
      obtain ⟨k₀, v₀⟩ := p
      by_cases h0 : k₀ = k
      · subst h0; simp [rput, rget, hkk]
      · simp [rput, rget, h0, ih]

theorem rget_rdel_ne (db : Redis) (k k' : String) (h : k' ≠ k) :
    rget (rdel db k) k' = rget db k' := by
  have hkk : ¬k = k' := fun he => h he.symm
  induction db with
  | nil => simp [rdel]
  | cons p rest ih =>
      obtain ⟨k₀, v₀⟩ := p
      by_cases h0 : k₀ = k
      · subst h0; simp [rdel, rget, hkk, ih]
      · simp [rdel, rget, h0, ih]

theorem lrange_rput_self (db : Redis) (k : String) (l : List String) :
    lrange (rput db k (.list l)) k = l := by
  simp [lrange, rget_rput_self]

/-! ### Key-name distinctness

The three per-stream keys and the catalog key use distinct prefixes
(`upnext-`, `recent-`, `state-`, `track-pool`), so they can never collide,
whatever the stream names. -/

theorem recentKey_ne_upnextKey (s t : String) : recentKey s ≠ upnextKey t := by
  intro h
  have h2 := congrArg String.data h
  simp only [recentKey, upnextKey, String.data_append] at h2
  simp at h2

theorem trackPoolKey_ne_upnextKey (s : String) : trackPoolKey ≠ upnextKey s := by
  intro h
  have h2 := congrArg String.data h
  simp only [trackPoolKey, upnextKey, String.data_append] at h2
  simp at h2

theorem recentKey_ne_stateKey (s t : String) : recentKey s ≠ stateKey t := by
  intro h
  have h2 := congrArg String.data h
  simp only [recentKey, stateKey, String.data_append] at h2
  simp at h2

/-! ### `List.eraseDups` membership -/

theorem mem_eraseDups_loop (a : String) (l : List String) :
    ∀ acc : List String,
      (a ∈ List.eraseDups.loop l acc ↔ a ∈ acc ∨ a ∈ l) := by
  induction l with
  | nil => intro acc; simp [List.eraseDups.loop]
  | cons x xs ih =>
      intro acc
      rw [List.eraseDups.loop]
      cases hx : List.elem x acc with
      | true =>
          have hxa : x ∈ acc := List.elem_iff.mp hx
          simp only [ih]
          simp only [List.mem_cons]
          constructor
          · rintro (h | h)
            · exact Or.inl h
            · exact Or.inr (Or.inr h)
          · rintro (h | h | h)
            · exact Or.inl h
            · exact Or.inl (h ▸ hxa)
            · exact Or.inr h
      | false =>
          simp only [ih, List.mem_cons]
          tauto

theorem mem_eraseDups (a : String) (l : List String) :
    a ∈ l.eraseDups ↔ a ∈ l := by
  unfold List.eraseDups
  rw [mem_eraseDups_loop]
  simp

theorem eraseDups_ne_nil (l : List String) (h : l ≠ []) :
    l.eraseDups ≠ [] := by
  cases l with
  | nil => exact absurd rfl h
  | cons x xs =>
      intro he
      have hx : x ∈ (x :: xs).eraseDups :=
        (mem_eraseDups x (x :: xs)).mpr (List.mem_cons_self x xs)
      rw [he] at hx
      simp at hx

/-! ### `drainQueue` lemmas -/

theorem drainQueue_rget_ne (s k : String) (h : k ≠ upnextKey s) :
    ∀ (l : List String) (db : Redis),
      rget (drainQueue s l db).1 k = rget db k := by
  intro l
  induction l with
  | nil => intro db; rfl
  | cons x rest ih =>
      intro db
      rw [drainQueue]
      set db' := if rest = [] then rdel db (upnextKey s)
                 else rput db (upnextKey s) (RVal.list rest) with hdbdef
      have hdb' : rget db' k = rget db k := by
        rw [hdbdef]
        split
        · exact rget_rdel_ne db (upnextKey s) k h
        · exact rget_rput_ne db (upnextKey s) k _ h
      by_cases hx : x = ""
      · rw [if_pos hx, ih, hdb']
      · rw [if_neg hx]
        by_cases he : redisExists db' x = true
        · rw [if_pos he]
          exact hdb'
        · rw [if_neg he, ih, hdb']

theorem drainQueue_some (s : String) :
    ∀ (l : List String) (db db' : Redis) (t : String),
      drainQueue s l db = (db', some t) →
      t ≠ "" ∧ redisExists db' t = true := by
  intro l
  induction l with
  | nil =>
      intro db db' t h
      simp [drainQueue] at h
  | cons x rest ih =>
      intro db db' t h
      rw [drainQueue] at h
      by_cases hx : x = ""
      · rw [if_pos hx] at h
        exact ih _ _ _ h
      · rw [if_neg hx] at h
        by_cases he :
            redisExists (if rest = [] then rdel db (upnextKey s)
                         else rput db (upnextKey s) (.list rest)) x = true
        · rw [if_pos he] at h
          obtain ⟨hdb, ht⟩ := Prod.mk.injEq .. ▸ h
          injection h with h1 h2
          injection h2 with h2
          subst h1; subst h2
          exact ⟨hx, he⟩
        · rw [if_neg he] at h
          exact ih _ _ _ h

/-- `DequeueNext` leaves every key other than the stream's up-next list
untouched. -/
theorem drain_rget_ne (db : Redis) (s k : String) (h : k ≠ upnextKey s) :
    rget (drain db s).1 k = rget db k :=
  drainQueue_rget_ne s k h (lrange db (upnextKey s)) db

/-! ### Hash lemmas -/

theorem hlookup_hputField_self (h : List (String × String)) (f v : String) :
    hlookup (hputField h f v) f = some v := by
  induction h with
  | nil => simp [hputField, hlookup]
  | cons p rest ih =>
      obtain ⟨g, w⟩ := p
      by_cases hg : g = f
      · subst hg; simp [hputField, hlookup]
      · simp [hputField, hlookup, hg, ih]

theorem rget_ltrim_ne (db : Redis) (k k' : String) (a b : Nat) (h : k' ≠ k) :
    rget (ltrim db k a b) k' = rget db k' := by
  unfold ltrim
  split
  · dsimp only
    split
    · exact rget_rdel_ne db k k' h
    · exact rget_rput_ne db k k' _ h
  · rfl

/-! ### `RecordPlayed` (the `currentTrack` pipeline) -/

theorem recordPlayed_rget_recent (db : Redis) (s v : String) :
    rget (recordPlayed db s v) (recentKey s)
      = some (.list ((v :: lrange db (recentKey s)).take 6)) := by
  have e : recordPlayed db s v
      = ltrim (lpush (hset db (stateKey s) "currentTrack" v) (recentKey s) v)
          (recentKey s) 0 5 := rfl
  rw [e]
  have h1 : lrange (hset db (stateKey s) "currentTrack" v) (recentKey s)
      = lrange db (recentKey s) := by
    unfold lrange hset
    rw [rget_rput_ne _ _ _ _ (recentKey_ne_stateKey s s)]
  have h2 : rget (lpush (hset db (stateKey s) "currentTrack" v)
        (recentKey s) v) (recentKey s)
      = some (.list (v :: lrange db (recentKey s))) := by
    unfold lpush
    rw [rget_rput_self, h1]
  unfold ltrim
  rw [h2]
  dsimp only
  rw [List.drop_zero]
  have h3 : (v :: lrange db (recentKey s)).take (5 + 1 - 0)
      = v :: (lrange db (recentKey s)).take 5 := rfl
  rw [h3]
  rw [if_neg (List.cons_ne_nil v _)]
  rw [rget_rput_self]

theorem recordPlayed_lrange (db : Redis) (s v : String) :
    lrange (recordPlayed db s v) (recentKey s)
      = (v :: lrange db (recentKey s)).take 6 := by
  unfold lrange
  rw [recordPlayed_rget_recent]
  rfl

theorem recordPlayed_listTyped (db : Redis) (s v : String) :
    listTyped (recordPlayed db s v) (recentKey s) = true := by
  unfold listTyped
  rw [recordPlayed_rget_recent]

theorem recordPlayed_rget_state (db : Redis) (s v : String) :
    rget (recordPlayed db s v) (stateKey s)
      = some (.hash (hputField (hgetall db (stateKey s)) "currentTrack" v)) := by
  have e : recordPlayed db s v
      = ltrim (lpush (hset db (stateKey s) "currentTrack" v) (recentKey s) v)
          (recentKey s) 0 5 := rfl
  rw [e]
  rw [rget_ltrim_ne _ _ _ _ _ fun hh => recentKey_ne_stateKey s s hh.symm]
  unfold lpush
  rw [rget_rput_ne _ _ _ _ fun hh => recentKey_ne_stateKey s s hh.symm]
  unfold hset
  rw [rget_rput_self]

/-! ### `handleNext` characterizations -/

theorem handleNext_drain_some (db db2 : Redis) (s t : String) (rnd : Nat)
    (h : drain db s = (db2, some t)) :
    handleNext db s rnd
      = (db2, .track t, [.updateUpNext s (lrange db2 (upnextKey s))]) := by
  unfold handleNext
  rw [h]

theorem handleNext_drain_none (db db2 : Redis) (s : String) (rnd : Nat)
    (h : drain db s = (db2, none)) :
    handleNext db s rnd =
      (if (smembers db2 trackPoolKey).eraseDups.filter
            (fun t => decide (t ∉ lrange db2 (recentKey s))) = [] then
         if lrange db2 (recentKey s) = [] then (db2, .noContent, [])
         else (db2, .track ((lrange db2 (recentKey s)).headD ""), [])
       else
         (db2, .track
            (((smembers db2 trackPoolKey).eraseDups.filter
                (fun t => decide (t ∉ lrange db2 (recentKey s)))).getD
              (rnd % ((smembers db2 trackPoolKey).eraseDups.filter
                (fun t => decide (t ∉ lrange db2 (recentKey s)))).length) ""),
          [])) := by
  unfold handleNext
  rw [h]

theorem drain_lrange_recent (db : Redis) (s : String) :
    lrange (drain db s).1 (recentKey s) = lrange db (recentKey s) := by
  unfold lrange
  rw [drain_rget_ne db s _ (recentKey_ne_upnextKey s s)]

theorem drain_smembers_pool (db : Redis) (s : String) :
    smembers (drain db s).1 trackPoolKey = smembers db trackPoolKey := by
  unfold smembers
  rw [drain_rget_ne db s _ (trackPoolKey_ne_upnextKey s)]

/-! ### Claim theorems -/

/-- C1 (code-bug evaluation): `PatchState(stream, {playing: v})` is a no-op
in the code — the Go `switch` has `case "playing":` with an empty body and Go
does not fall through — so the state hash is left unchanged and no event is
published; `autoplay`, by contrast, sets its field and publishes exactly one
`update` event with the same key/value, as the claim states for both. -/
theorem C1_playing_patch_noop (db : Redis) (s v : String) :
    patchField db s "playing" v = (db, []) ∧
    (patchField db s "autoplay" v).2 = [Event.update s "autoplay" v] ∧
    hlookup (hgetall (patchField db s "autoplay" v).1 (stateKey s)) "autoplay"
      = some v := by
  refine ⟨rfl, rfl, ?_⟩
  have e : (patchField db s "autoplay" v).1
      = hset db (stateKey s) "autoplay" v := rfl
  rw [e]
  unfold hgetall hset
  rw [rget_rput_self]
  exact hlookup_hputField_self _ _ _

/-- Catalog `{a, b}`, recency history `[b, a]` (`b` the most recent), empty
queue: the exhausted-catalog fallback fires. -/
def C2db : Redis :=
  [("track-pool", RVal.set ["a", "b"]), ("a", RVal.hash [("title", "x")]),
   ("b", RVal.hash [("title", "y")]), ("recent-main", RVal.list ["b", "a"])]

/-- C2 (code-bug evaluation): with every catalog track in the history, the
fallback returns `recentlyPlayed.Val()[0]` — the HEAD of the most-recent-first
list, i.e. the MOST-recently-played track `"b"` — although the code names it
`oldestTrack`; the claim (and the tail of the ordering) is `"a"`. -/
theorem C2_fallback_returns_most_recent :
    lrange C2db (recentKey "main") = ["b", "a"] ∧
    (handleNext C2db "main" 0).2.1 = NextResult.track "b" ∧
    (handleNext C2db "main" 0).2.1 ≠ NextResult.track "a" := by
  decide

/-- C3 counterexample: recording the same track twice consecutively from an
empty history yields `["t", "t"]` — an adjacent duplicate, and a longer
history than after the first recording — because the `currentTrack` pipeline
is `LPush` + `LTrim 0 5` with no dedup step. -/
theorem C3_counterexample :
    lrange (recordAll [] "main" ["t", "t"]) (recentKey "main") = ["t", "t"] ∧
    lrange (recordAll [] "main" ["t"]) (recentKey "main") = ["t"] := by
  decide

/-- C3 amended: recording `v` as played does NOT remove existing occurrences;
it pushes `v` at the head of the recency history and truncates to the 6
most-recent entries, so the new history is `(v :: old).take 6` — in
particular recording the same track twice consecutively duplicates it. -/
theorem C3_record_pushes_without_dedup (db : Redis) (s v : String)
    (hty : listTyped db (recentKey s) = true) :
    lrange (recordPlayed db s v) (recentKey s)
      = (v :: lrange db (recentKey s)).take 6 :=
  recordPlayed_lrange db s v

theorem C3_record_witness :
    listTyped [("recent-main", RVal.list ["a", "b"])] (recentKey "main")
        = true ∧
    lrange (recordPlayed [("recent-main", RVal.list ["a", "b"])] "main" "t")
        (recentKey "main") = ["t", "a", "b"] :=
  ⟨by decide,
   (C3_record_pushes_without_dedup [("recent-main", RVal.list ["a", "b"])]
      "main" "t" (by decide)).trans (by decide)⟩

/-- State hash with `currentTrack = "t"` and full metadata for track `"t"`
present in the store. -/
def C4db : Redis :=
  [("state-main", RVal.hash [("currentTrack", "t")]),
   ("t", RVal.hash [("title", "Song"), ("artist", "A")]),
   ("track-pool", RVal.set ["t"])]

/-- C4 counterexample: although the metadata lookup for track `"t"` would
succeed, `GetState` returns the state hash verbatim, carrying the bare id
`"t"` under `currentTrack` — the metadata is not resolved and inlined, and
the field is not omitted either. -/
theorem C4_counterexample :
    getState C4db "main" = [("currentTrack", "t")] ∧
    hgetall C4db "t" = [("title", "Song"), ("artist", "A")] := by
  decide

/-- C4 amended: `GetState` returns the stored state map verbatim (a bare
`HGetAll` of the state hash); after `PatchState(currentTrack = v)` the
response carries the bare id `v` under `currentTrack`, and no metadata
resolution (hence no lookup-failure omission) ever takes place. -/
theorem C4_state_verbatim (db : Redis) (s v : String)
    (hty : hashTyped db (stateKey s) = true) :
    getState db s = hgetall db (stateKey s) ∧
    hlookup (getState (recordPlayed db s v) s) "currentTrack" = some v := by
  refine ⟨rfl, ?_⟩
  unfold getState hgetall
  rw [recordPlayed_rget_state]
  exact hlookup_hputField_self _ _ _

theorem C4_witness :
    hashTyped C4db (stateKey "main") = true ∧
    getState C4db "main" = hgetall C4db (stateKey "main") ∧
    hlookup (getState (recordPlayed C4db "main" "u") "main") "currentTrack"
      = some "u" :=
  ⟨by decide, (C4_state_verbatim C4db "main" "u" (by decide)).1,
   (C4_state_verbatim C4db "main" "u" (by decide)).2⟩

/-- C5: `NextTrack` fails with `NoContentAvailable` (the 418 reply) iff the
up-next queue yields no valid entry and both the catalog set and the
stream's recency history are empty; in particular a non-empty catalog rules
out `NoContentAvailable` for every random draw — which covers the claim's
`catalogSize ≤ historySize` case. -/
theorem C5_noContent_iff (db : Redis) (s : String) (rnd : Nat)
    (hu : listTyped db (upnextKey s) = true)
    (hr : listTyped db (recentKey s) = true)
    (hp : setTyped db trackPoolKey = true) :
    ((handleNext db s rnd).2.1 = NextResult.noContent ↔
      ((drain db s).2 = none ∧ smembers db trackPoolKey = []
        ∧ lrange db (recentKey s) = []))
    ∧ (smembers db trackPoolKey ≠ [] →
        (handleNext db s rnd).2.1 ≠ NextResult.noContent) := by
  have key : (handleNext db s rnd).2.1 = NextResult.noContent ↔
      ((drain db s).2 = none ∧ smembers db trackPoolKey = []
        ∧ lrange db (recentKey s) = []) := by
    rcases hd : drain db s with ⟨db2, r⟩
    have hrec : lrange db2 (recentKey s) = lrange db (recentKey s) := by
      have h := drain_lrange_recent db s
      rw [hd] at h
      exact h
    have hpool : smembers db2 trackPoolKey = smembers db trackPoolKey := by
      have h := drain_smembers_pool db s
      rw [hd] at h
      exact h
    cases r with
    | some t =>
        rw [handleNext_drain_some db db2 s t rnd hd]
        simp
    | none =>
        rw [handleNext_drain_none db db2 s rnd hd, hrec, hpool]
        by_cases hsel : (smembers db trackPoolKey).eraseDups.filter
            (fun x => decide (x ∉ lrange db (recentKey s))) = []
        · rw [if_pos hsel]
          by_cases hre : lrange db (recentKey s) = []
          · rw [if_pos hre]
            have hpoolnil : smembers db trackPoolKey = [] := by
              by_contra hne
              refine eraseDups_ne_nil _ hne ?_
              rw [hre] at hsel
              simpa using hsel
            simp [hre, hpoolnil]
          · rw [if_neg hre]
            simp [hre]
        · rw [if_neg hsel]
          constructor
          · intro hcon
            simp at hcon
          · rintro ⟨-, hp0, -⟩
            rw [hp0] at hsel
            exact absurd rfl hsel
  exact ⟨key, fun hne hcon => hne ((key.mp hcon).2.1)⟩

/-- Catalog `{a}`, no recency history, no queue: the next endpoint must
return a track. -/
def C5wdb : Redis :=
  [("track-pool", RVal.set ["a"]), ("a", RVal.hash [("t", "1")])]

theorem C5_witness :
    ((handleNext C5wdb "main" 0).2.1 = NextResult.noContent ↔
      ((drain C5wdb "main").2 = none ∧ smembers C5wdb trackPoolKey = []
        ∧ lrange C5wdb (recentKey "main") = []))
    ∧ (smembers C5wdb trackPoolKey ≠ [] →
        (handleNext C5wdb "main" 0).2.1 ≠ NextResult.noContent) :=
  C5_noContent_iff C5wdb "main" 0 (by decide) (by decide) (by decide)

/-- C6: when the up-next queue is exhausted and the (duplicate-free) catalog
set is strictly larger than the recency history, the randomized selection
branch never returns a track present in the history: for every `rand.Intn`
draw the chosen track is drawn from `catalogIds − recencyHistoryIds`. -/
theorem C6_random_avoids_recent (db : Redis) (s t : String) (rnd : Nat)
    (hu : listTyped db (upnextKey s) = true)
    (hr : listTyped db (recentKey s) = true)
    (hp : setTyped db trackPoolKey = true)
    (hq : (drain db s).2 = none)
    (hnd : (smembers db trackPoolKey).Nodup)
    (hsz : (lrange db (recentKey s)).length
      < (smembers db trackPoolKey).length)
    (ht : (handleNext db s rnd).2.1 = NextResult.track t) :
    t ∉ lrange db (recentKey s) := by
  rcases hd : drain db s with ⟨db2, r⟩
  rw [hd] at hq
  cases r with
  | some u => simp at hq
  | none =>
    have hrec : lrange db2 (recentKey s) = lrange db (recentKey s) := by
      have h := drain_lrange_recent db s
      rw [hd] at h
      exact h
    have hpool : smembers db2 trackPoolKey = smembers db trackPoolKey := by
      have h := drain_smembers_pool db s
      rw [hd] at h
      exact h
    rw [handleNext_drain_none db db2 s rnd hd, hrec, hpool] at ht
    set pool := smembers db trackPoolKey with hpooldef
    set rec := lrange db (recentKey s) with hrecdef
    set sel := pool.eraseDups.filter (fun x => decide (x ∉ rec)) with hseldef
    have hselne : sel ≠ [] := by
      intro hsel
      have hsub : ∀ x ∈ pool, x ∈ rec := by
        intro x hx
        have hx' : x ∈ pool.eraseDups := (mem_eraseDups x pool).mpr hx
        have hfil := List.filter_eq_nil_iff.mp hsel x hx'
        simpa using hfil
      have hle : pool.length ≤ rec.length := by
        have h1 : pool.toFinset.card = pool.length :=
          List.toFinset_card_of_nodup hnd
        have h2 : pool.toFinset ⊆ rec.toFinset := by
          intro x hx
          exact List.mem_toFinset.mpr (hsub x (List.mem_toFinset.mp hx))
        have h3 := Finset.card_le_card h2
        have h4 := List.toFinset_card_le (l := rec)
        omega
      omega
    rw [if_neg hselne] at ht
    have ht' : sel.getD (rnd % sel.length) "" = t := by
      injection ht
    have hlen : 0 < sel.length := List.length_pos.mpr hselne
    have hidx : rnd % sel.length < sel.length := Nat.mod_lt _ hlen
    have hmem : sel.getD (rnd % sel.length) "" ∈ sel := by
      rw [List.getD_eq_getElem sel "" hidx]
      exact List.getElem_mem hidx
    rw [ht'] at hmem
    have hmem2 := List.mem_filter.mp hmem
    simpa using hmem2.2

/-- Catalog `{a, b}` (duplicate-free), history `[b]`, empty queue: the
random branch must avoid `b`. -/
def C6wdb : Redis :=
  [("track-pool", RVal.set ["a", "b"]), ("recent-main", RVal.list ["b"])]

theorem C6_witness :
    (drain C6wdb "main").2 = none ∧
    (smembers C6wdb trackPoolKey).Nodup ∧
    (lrange C6wdb (recentKey "main")).length
      < (smembers C6wdb trackPoolKey).length ∧
    (handleNext C6wdb "main" 0).2.1 = NextResult.track "a" ∧
    "a" ∉ lrange C6wdb (recentKey "main") :=
  ⟨by decide, by decide, by decide, by decide,
   C6_random_avoids_recent C6wdb "main" "a" 0 (by decide) (by decide)
     (by decide) (by decide) (by decide) (by decide) (by decide)⟩

/-- The queue holds `"recent-main"`, which is an existing store key (the
stream's own recency list) but not a member of the catalog set. -/
def C7db : Redis :=
  [("track-pool", RVal.set ["a"]), ("a", RVal.hash [("title", "x")]),
   ("upnext-main", RVal.list ["recent-main"]),
   ("recent-main", RVal.list ["a"])]

/-- C7 counterexample: `DequeueNext` returns the queue entry
`"recent-main"`, a string absent from the catalog id set, because the skip
check is the generic `EXISTS <key>` probe rather than catalog membership. -/
theorem C7_counterexample :
    (handleNext C7db "main" 0).2.1 = NextResult.track "recent-main" ∧
    "recent-main" ∉ smembers C7db trackPoolKey := by
  decide

/-- C7 amended: `DequeueNext` never returns a tombstoned (empty) slot nor an
id whose store-key existence probe fails: it pops slots from the head,
silently consuming tombstones and ids naming no existing key, until it finds
an id that names an existing key (returned) or the queue is exhausted. -/
theorem C7_dequeue_skips_tombstones_and_missing (db db' : Redis)
    (s t : String) (h : drain db s = (db', some t)) :
    t ≠ "" ∧ redisExists db' t = true := by
  unfold drain at h
  exact drainQueue_some s _ db db' t h

/-- Queue `["", "a"]`: a tombstone followed by a valid entry. -/
def C7wdb : Redis :=
  [("upnext-main", RVal.list ["", "a"]), ("a", RVal.hash [("x", "1")])]

theorem C7_witness :
    drain C7wdb "main" = ([("a", RVal.hash [("x", "1")])], some "a") ∧
    "a" ≠ "" ∧ redisExists [("a", RVal.hash [("x", "1")])] "a" = true :=
  ⟨by decide,
   C7_dequeue_skips_tombstones_and_missing C7wdb
     [("a", RVal.hash [("x", "1")])] "main" "a" (by decide)⟩

/-- C8: after any sequence of `RecordPlayed` operations starting from a
history within the bound, the recency history length never exceeds the
configured maximum of 6 entries (`LTrim 0 5` keeps indices 0 through 5). -/
theorem C8_history_bounded (db : Redis) (s : String) (vs : List String)
    (hty : listTyped db (recentKey s) = true)
    (h0 : (lrange db (recentKey s)).length ≤ 6) :
    (lrange (recordAll db s vs) (recentKey s)).length ≤ 6 := by
  induction vs generalizing db with
  | nil => exact h0
  | cons v vs ih =>
      have e : recordAll db s (v :: vs)
          = recordAll (recordPlayed db s v) s vs := rfl
      rw [e]
      refine ih (recordPlayed db s v) (recordPlayed_listTyped db s v) ?_
      rw [recordPlayed_lrange, List.length_take]
      exact min_le_left _ _

theorem C8_witness :
    listTyped ([] : Redis) (recentKey "main") = true ∧
    (lrange ([] : Redis) (recentKey "main")).length ≤ 6 ∧
    (lrange (recordAll [] "main" ["a", "b", "c", "d", "e", "f", "g", "h"])
        (recentKey "main")).length ≤ 6 :=
  ⟨by decide, by decide,
   C8_history_bounded [] "main" ["a", "b", "c", "d", "e", "f", "g", "h"]
     (by decide) (by decide)⟩

/-- C9: the guard on `EnqueueTrack` is the generic key-existence probe
`EXISTS trackId`, not catalog membership: a `trackId` that names any existing
store key — here explicitly one outside the catalog id set — is accepted and
appended to the tail of the queue instead of being rejected with
`UnknownTrack` (424). -/
theorem C9_enqueue_existence_probe (db : Redis) (s tid : String)
    (hex : redisExists db tid = true)
    (hmem : tid ∉ smembers db trackPoolKey)
    (hty : listTyped db (upnextKey s) = true) :
    (enqueueTrack db s tid).2.1 = UpNextPutResult.ok ∧
    lrange (enqueueTrack db s tid).1 (upnextKey s)
      = lrange db (upnextKey s) ++ [tid] := by
  unfold enqueueTrack
  rw [if_pos hex]
  refine ⟨rfl, ?_⟩
  unfold rpush
  exact lrange_rput_self _ _ _

/-- The id `"track-pool"` (the catalog set key itself) exists as a store key
but is not a member of the catalog id set `{a}`. -/
def C9wdb : Redis :=
  [("track-pool", RVal.set ["a"]), ("a", RVal.hash [("title", "x")])]

theorem C9_witness :
    redisExists C9wdb "track-pool" = true ∧
    "track-pool" ∉ smembers C9wdb trackPoolKey ∧
    (enqueueTrack C9wdb "main" "track-pool").2.1 = UpNextPutResult.ok ∧
    lrange (enqueueTrack C9wdb "main" "track-pool").1 (upnextKey "main")
      = ["track-pool"] :=
  ⟨by decide, by decide,
   (C9_enqueue_existence_probe C9wdb "main" "track-pool" (by decide)
      (by decide) (by decide)).1,
   ((C9_enqueue_existence_probe C9wdb "main" "track-pool" (by decide)
      (by decide) (by decide)).2).trans (by decide)⟩

/-- C10: `RemoveQueueEntry` accepts negative indices rather than rejecting
them: on every non-empty queue, index `-1` succeeds and tombstones the last
slot (negative indices address slots from the tail), and `InvalidIndex` is
returned exactly when the store's `LSET` operation itself reports an error
for the requested index. -/
theorem C10_remove_negative_index (db : Redis) (s : String) (i : Int) :
    (lrange db (upnextKey s) ≠ [] →
      (removeAt db s (-1)).2.1 = RemoveResult.ok ∧
      lrange (removeAt db s (-1)).1 (upnextKey s)
        = (lrange db (upnextKey s)).set
            ((lrange db (upnextKey s)).length - 1) "")
    ∧ ((removeAt db s i).2.1 = RemoveResult.invalidIndex ↔
        lset db (upnextKey s) i "" = none) := by
  constructor
  · intro hne
    obtain ⟨l, hl⟩ : ∃ l, rget db (upnextKey s) = some (.list l) := by
      cases hre : rget db (upnextKey s) with
      | none => exact absurd (by unfold lrange; rw [hre]) hne
      | some v =>
          cases v with
          | list l => exact ⟨l, rfl⟩
          | hash h => exact absurd (by unfold lrange; rw [hre]) hne
          | set m => exact absurd (by unfold lrange; rw [hre]) hne
    have hlr : lrange db (upnextKey s) = l := by
      unfold lrange
      rw [hl]
    rw [hlr] at hne ⊢
    have hlen : 0 < l.length := List.length_pos.mpr hne
    have hlset : lset db (upnextKey s) (-1) ""
        = some (rput db (upnextKey s) (.list (l.set (l.length - 1) ""))) := by
      unfold lset
      rw [hl]
      dsimp only
      rw [if_pos (by norm_num : (-1 : Int) < 0)]
      rw [if_pos ⟨by omega, by omega⟩]
      have hj : ((-1 : Int) + l.length).toNat = l.length - 1 := by omega
      rw [hj]
    unfold removeAt
    rw [hlset]
    exact ⟨rfl, lrange_rput_self _ _ _⟩
  · unfold removeAt
    cases hls : lset db (upnextKey s) i "" with
    | none => simp
    | some db' => simp

/-- Queue `[x, y]`: index `-1` must tombstone `y`. -/
def C10wdb : Redis := [("upnext-main", RVal.list ["x", "y"])]

theorem C10_witness :
    lrange C10wdb (upnextKey "main") ≠ [] ∧
    (removeAt C10wdb "main" (-1)).2.1 = RemoveResult.ok ∧
    lrange (removeAt C10wdb "main" (-1)).1 (upnextKey "main") = ["x", ""] ∧
    ((removeAt C10wdb "main" 5).2.1 = RemoveResult.invalidIndex ↔
      lset C10wdb (upnextKey "main") 5 "" = none) :=
  ⟨by decide,
   ((C10_remove_negative_index C10wdb "main" 5).1 (by decide)).1,
   (((C10_remove_negative_index C10wdb "main" 5).1 (by decide)).2).trans
     (by decide),
   (C10_remove_negative_index C10wdb "main" 5).2⟩

end MusicControl
